import Mathlib

/-!
Verification development for the jazz-night-feed repository.

The repository has two entry points:
* `src/scrape-jazz-night.mjs` — full rebuild: expand the archive page,
  extract every episode, build a fresh RSS feed (`buildRss`).
* `src/update-jazz-night.mjs` — incremental update: extract the newest
  episodes, diff against the existing feed by audio URL, merge, re-sort,
  truncate (`updateFeedWithNewEpisodes`).

This file shallowly embeds the pure decision logic of those scripts:
the date resolver (`parseDateToRss`, both variants), the date-text
extraction strategies, the XML escaping/sanitising helpers, the feed
merge/sort/cap logic, the extraction dedup, the title-anchor selection
and the pagination loop's control state.  Browser automation, file I/O
and the XML library are external collaborators; where their behaviour
matters (the host's `Date` parser and `toUTCString`, the xml2js
builder/parser round trip) they are modelled explicitly and the model's
scope is documented at the definition.
-/

set_option maxRecDepth 8000

namespace JazzNight

/-! ## Character and string helpers

All string functions work on `List Char` (the `data` field of `String`)
so that proofs are plain structural inductions. -/

/-- The double-quote character. -/
def quoteC : Char := Char.ofNat 34

/-- The apostrophe character. -/
def aposC : Char := Char.ofNat 39

/-- JavaScript `\d`: an ASCII decimal digit. -/
def isDigitC (c : Char) : Bool := c.isDigit

/-- JavaScript `\w`: ASCII letter, digit or underscore (used for the
word-boundary `\b` checks in the date regexes). -/
def isWordChar (c : Char) : Bool := c.isAlphanum || c = '_'

/-- JavaScript `\s` as used on this site's text: whitespace. -/
def isWsC (c : Char) : Bool := c.isWhitespace

/-- JavaScript `String.prototype.trim`: strip leading and trailing
whitespace (implemented over the character list so that proofs can
evaluate it). -/
def jsTrim (s : String) : String :=
  ⟨(((s.data.dropWhile isWsC).reverse).dropWhile isWsC).reverse⟩

/-- JavaScript `String.prototype.split("/")`. -/
def splitSlashGo (cur : List Char) : List Char → List (List Char)
  | [] => [cur.reverse]
  | c :: r => if c = '/' then cur.reverse :: splitSlashGo [] r else splitSlashGo (c :: cur) r

/-- Split a string on `/`. -/
def splitOnSlashL (l : List Char) : List (List Char) := splitSlashGo [] l

/-- Re-join parts with `/` (the template string of the source's slash
reformatting). -/
def joinSlash : List (List Char) → List Char
  | [] => []
  | [x] => x
  | x :: xs => x ++ '/' :: joinSlash xs

/-! ## Calendar arithmetic

The host's `Date` values are modelled as `Int` epoch milliseconds
(UTC); an invalid date (`NaN` time value) is `Option.none`.  Civil-date
conversion uses the standard days-from-civil / civil-from-days
algorithms with Euclidean division. -/

/-- Gregorian leap-year test. -/
def isLeapYear (y : Int) : Bool :=
  (y % 4 == 0 && y % 100 != 0) || y % 400 == 0

/-- Days in a month (1-12) of a given year. -/
def daysInMonth (y : Int) (m : Nat) : Nat :=
  match m with
  | 1 => 31 | 2 => if isLeapYear y then 29 else 28
  | 3 => 31 | 4 => 30 | 5 => 31 | 6 => 30
  | 7 => 31 | 8 => 31 | 9 => 30 | 10 => 31
  | 11 => 30 | 12 => 31
  | _ => 0

/-- Days since 1970-01-01 of the civil date y-m-d. -/
def daysFromCivil (y0 : Int) (m d : Nat) : Int :=
  let y : Int := if m ≤ 2 then y0 - 1 else y0
  let era : Int := y.ediv 400
  let yoe : Nat := (y.emod 400).toNat
  let mp : Nat := if m > 2 then m - 3 else m + 9
  let doy : Nat := (153 * mp + 2) / 5 + d - 1
  let doe : Nat := yoe * 365 + yoe / 4 - yoe / 100 + doy
  era * 146097 + (doe : Int) - 719468

/-- Civil date (year, month, day) of a count of days since 1970-01-01. -/
def civilFromDays (z0 : Int) : Int × Nat × Nat :=
  let z : Int := z0 + 719468
  let era : Int := z.ediv 146097
  let doe : Nat := (z.emod 146097).toNat
  let yoe : Nat := (doe - doe / 1460 + doe / 36524 - doe / 146096) / 365
  let y : Int := (yoe : Int) + era * 400
  let doy : Nat := doe - (365 * yoe + yoe / 4 - yoe / 100)
  let mp : Nat := (5 * doy + 2) / 153
  let d : Nat := doy - (153 * mp + 2) / 5 + 1
  let m : Nat := if mp < 10 then mp + 3 else mp - 9
  (if m ≤ 2 then y + 1 else y, m, d)

/-- Epoch milliseconds of midnight UTC on the civil date y-m-d. -/
def mkUtcMs (y : Int) (m d : Nat) : Int :=
  daysFromCivil y m d * 86400000

/-- Two-digit zero padding used by `Date.prototype.toUTCString`. -/
def pad2 (n : Nat) : String := if n < 10 then "0" ++ toString n else toString n

/-- Abbreviated month name of `Date.prototype.toUTCString`. -/
def monthAbbrevName (m : Nat) : String :=
  match m with
  | 1 => "Jan" | 2 => "Feb" | 3 => "Mar" | 4 => "Apr"
  | 5 => "May" | 6 => "Jun" | 7 => "Jul" | 8 => "Aug"
  | 9 => "Sep" | 10 => "Oct" | 11 => "Nov" | 12 => "Dec"
  | _ => ""

/-- Day-of-week name of `Date.prototype.toUTCString` (0 = Sunday). -/
def dowName (d : Nat) : String :=
  match d with
  | 0 => "Sun" | 1 => "Mon" | 2 => "Tue" | 3 => "Wed"
  | 4 => "Thu" | 5 => "Fri" | 6 => "Sat"
  | _ => ""

/-- Four-digit year padding of `toUTCString` (years here are CE). -/
def pad4 (y : Int) : String :=
  if y < 10 then "000" ++ toString y
  else if y < 100 then "00" ++ toString y
  else if y < 1000 then "0" ++ toString y
  else toString y

/-- Model of `Date.prototype.toUTCString` on a valid time value:
an RFC-1123-style string such as "Tue, 14 Oct 2025 00:00:00 GMT". -/
def toUTCString (ms : Int) : String :=
  let days : Int := ms.ediv 86400000
  let msod : Nat := (ms.emod 86400000).toNat
  let ymd := civilFromDays days
  let dow : Nat := ((days + 4).emod 7).toNat
  let h : Nat := msod / 3600000
  let mi : Nat := msod % 3600000 / 60000
  let s : Nat := msod % 60000 / 1000
  dowName dow ++ ", " ++ pad2 ymd.2.2 ++ " " ++ monthAbbrevName ymd.2.1 ++ " " ++
    pad4 ymd.1 ++ " " ++ pad2 h ++ ":" ++ pad2 mi ++ ":" ++ pad2 s ++ " GMT"

/-- Model of `Date.prototype.toUTCString` on a possibly invalid date:
V8 renders an invalid date as the literal string "Invalid Date". -/
def jsToUTCString (d : Option Int) : String :=
  match d with
  | some ms => toUTCString ms
  | none => "Invalid Date"

/-- Digit value of a digit character. -/
def digitVal (c : Char) : Nat := c.toNat - 48

/-- Model of the host's `new Date(string)` parser, restricted to the
strings this development evaluates it on.  It is exact for
date-only ISO strings `YYYY-MM-DD` (parsed as midnight UTC, with the
month and day ranges validated as V8 does) and for strings that match
no supported date format (these give an invalid date, i.e. `none`:
e.g. `""`, `"garbage text"`).  Other host-recognised formats
(month-name dates, RFC-1123 strings, slash dates) are conservatively
mapped to `none`; no theorem below depends on their time values. -/
def jsParse (s : String) : Option Int :=
  match s.data with
  | [y1, y2, y3, y4, '-', m1, m2, '-', d1, d2] =>
    if isDigitC y1 && isDigitC y2 && isDigitC y3 && isDigitC y4 &&
       isDigitC m1 && isDigitC m2 && isDigitC d1 && isDigitC d2 then
      let y : Int := (((digitVal y1 * 10 + digitVal y2) * 10 + digitVal y3) * 10 + digitVal y4 : Nat)
      let m : Nat := digitVal m1 * 10 + digitVal m2
      let d : Nat := digitVal d1 * 10 + digitVal d2
      if 1 ≤ m && m ≤ 12 && 1 ≤ d && d ≤ daysInMonth y m then
        some (mkUtcMs y m d)
      else none
    else none
  | _ => none

/-! ## Date Resolver

`parseDateToRss` exists in both scripts with slightly different bodies;
both are embedded.  The `fallback` argument is a host `Date` object,
which may itself be invalid, hence `Option Int`. -/

/-- Embedding of `parseDateToRss` from `src/scrape-jazz-night.mjs`
(lines 51-80): empty/blank date text falls back immediately; otherwise
the text is parsed; on failure a slash date of three parts is re-joined
with slashes (an identity transformation in the source) and re-parsed;
a valid result is rendered with `toUTCString`, otherwise the fallback
is rendered. -/
def parseDateToRssScrape (dateText : String) (fallback : Option Int) : String :=
  if jsTrim dateText = "" then jsToUTCString fallback
  else
    let d0 := jsParse dateText
    let d :=
      match d0 with
      | some v => some v
      | none =>
        if dateText.data.contains '/' then
          let parts := splitOnSlashL dateText.data
          if parts.length = 3 then jsParse ⟨joinSlash parts⟩ else none
        else none
    match d with
    | some v => toUTCString v
    | none => jsToUTCString fallback

/-- Embedding of `parseDateToRss` from `src/update-jazz-night.mjs`
(lines 43-49): parse the text; render it if valid, else render the
fallback. -/
def parseDateToRssUpdate (dateText : String) (fallback : Option Int) : String :=
  match jsParse dateText with
  | some v => toUTCString v
  | none => jsToUTCString fallback

/-! ## XML escaping and description sanitising -/

/-- Expansion of one character under `escapeXml`. -/
def escCharL (c : Char) : List Char :=
  if c = '&' then "&amp;".data
  else if c = '<' then "&lt;".data
  else if c = '>' then "&gt;".data
  else if c = quoteC then "&quot;".data
  else if c = aposC then "&apos;".data
  else [c]

/-- Embedding of `escapeXml` (identical in both scripts).  The source
applies five global replacements in sequence, `&` first; since every
replacement string introduces only characters that no later
replacement targets, the sequential composition equals this
character-wise expansion. -/
def escapeXml (s : String) : String := ⟨s.data.flatMap escCharL⟩

/-- A character `escapeXml` rewrites. -/
def specialC (c : Char) : Bool :=
  c = '&' || c = '<' || c = '>' || c = quoteC || c = aposC

/-- True when a string contains none of the five XML-escaped
characters, i.e. when `escapeXml` leaves it unchanged. -/
def xmlSpecialFree (s : String) : Bool :=
  s.data.all (fun c => !specialC c)

/-- Tag stripping of `sanitizeDescription`, the regex `/<[^>]*>/g`:
from a `<` onward characters are buffered (the buffer held reversed);
a `>` discards the buffered tag, the end of input releases the buffer
literally, because a `<` with no later `>` never matches. -/
def stripTagsGo (buf : Option (List Char)) : List Char → List Char
  | [] =>
    match buf with
    | some acc => acc.reverse
    | none => []
  | c :: r =>
    match buf with
    | some acc => if c = '>' then stripTagsGo none r else stripTagsGo (some (c :: acc)) r
    | none => if c = '<' then stripTagsGo (some [c]) r else c :: stripTagsGo none r

/-- Tag stripping of `sanitizeDescription` (see `stripTagsGo`). -/
def stripTags (l : List Char) : List Char := stripTagsGo none l

/-- Whitespace collapsing of `sanitizeDescription`, the regex
`/\s+/g` → `" "`: each maximal whitespace run becomes one space.  The
Boolean records a pending run. -/
def collapseWsGo : Bool → List Char → List Char
  | true, [] => [' ']
  | false, [] => []
  | p, c :: r =>
    if isWsC c then collapseWsGo true r
    else if p then ' ' :: c :: collapseWsGo false r
    else c :: collapseWsGo false r

/-- Whitespace collapsing of `sanitizeDescription`. -/
def collapseWs (l : List Char) : List Char := collapseWsGo false l

/-- Embedding of `sanitizeDescription` (identical in both scripts):
strip HTML tags, collapse whitespace, trim. -/
def sanitizeDescription (s : String) : String :=
  jsTrim (String.mk (collapseWs (stripTags s.data)))

/-! ## Data model -/

/-- Channel link constant `FEED_LINK` of both scripts. -/
def FEED_LINK : String := "https://www.npr.org/series/347174538/jazz-night-radio"

/-- The episode cap: `MAX_EPISODES` (default/constant 100). -/
def MAX_EPISODES : Nat := 100

/-- JavaScript `a || b` on strings: the empty string is falsy. -/
def jsOr (s d : String) : String := if s = "" then d else s

/-- A raw episode record as produced by one extraction pass. -/
structure RawEpisode where
  title : String
  link : String
  dateText : String
  audioUrl : String
  description : String
deriving DecidableEq

/-- A processed episode: a raw episode with the resolved date object
(`dateObj`, a host `Date`, possibly invalid), the rendered `pubDate`
and the `guid`. -/
structure Episode where
  title : String
  link : String
  dateText : String
  audioUrl : String
  description : String
  dateObj : Option Int
  pubDate : String
  guid : String
deriving DecidableEq

/-- A feed item in the shape xml2js holds it in memory: one string per
child element plus the enclosure url attribute. -/
structure Item where
  title : String
  link : String
  guid : String
  pubDate : String
  description : String
  enclosureUrl : String
deriving DecidableEq

/-- The persisted feed aggregate: its item list and the channel's
`lastBuildDate` (the remaining channel metadata is constant). -/
structure Feed where
  items : List Item
  lastBuildDate : String
deriving DecidableEq

/-- Embedding of the episode mapping in `main` of
`src/scrape-jazz-night.mjs` (lines 474-482): `dateObj` is
`new Date(dateText)` when the text is non-empty, else `new Date()`
(`now`); the `pubDate` fallback passed to `parseDateToRss` is that
very `dateObj`. -/
def processScrape (now : Int) (ep : RawEpisode) : Episode :=
  let dateObj := if ep.dateText ≠ "" then jsParse ep.dateText else some now
  { title := ep.title, link := ep.link, dateText := ep.dateText,
    audioUrl := ep.audioUrl, description := ep.description,
    dateObj := dateObj,
    pubDate := parseDateToRssScrape ep.dateText dateObj,
    guid := ep.audioUrl }

/-- Embedding of the episode mapping in `updateFeedWithNewEpisodes` of
`src/update-jazz-night.mjs` (lines 254-262); same shape as
`processScrape` but with the update script's `parseDateToRss`. -/
def processUpdate (now : Int) (ep : RawEpisode) : Episode :=
  let dateObj := if ep.dateText ≠ "" then jsParse ep.dateText else some now
  { title := ep.title, link := ep.link, dateText := ep.dateText,
    audioUrl := ep.audioUrl, description := ep.description,
    dateObj := dateObj,
    pubDate := parseDateToRssUpdate ep.dateText dateObj,
    guid := ep.audioUrl }

/-- Embedding of `createItemXml` (`src/update-jazz-night.mjs`
lines 224-241): every text field is passed through `escapeXml` (the
description through `sanitizeDescription` first) before being stored
in the xml2js tree. -/
def createItemXml (ep : Episode) : Item :=
  { title := escapeXml (jsOr ep.title "Untitled episode"),
    link := escapeXml (jsOr ep.link FEED_LINK),
    guid := escapeXml (jsOr ep.guid ep.audioUrl),
    pubDate := escapeXml ep.pubDate,
    description := escapeXml (sanitizeDescription ep.description),
    enclosureUrl := escapeXml ep.audioUrl }

/-! ## The JavaScript sort

Both merge paths call `Array.prototype.sort` with a comparator
`(a, b) => dateB - dateA`.  Subtracting an invalid date gives `NaN`,
which the ECMAScript `SortCompare` operation treats as `+0` (a tie).
`Array.prototype.sort` is stable, so for a consistent comparator the
result is the unique stable descending order; that order is computed
here by a stable insertion sort.  (When some key is invalid the
comparator is inconsistent and ECMAScript leaves the order
implementation-defined; the theorems about sortedness therefore assume
valid keys.) -/

/-- The comparator's strict "a sorts before b" test: `k b - k a < 0`,
with `NaN` (an invalid key on either side) treated as a tie. -/
def jsLtDesc (k : α → Option Int) (a b : α) : Bool :=
  match k a, k b with
  | some ka, some kb => decide (kb - ka < 0)
  | _, _ => false

/-- Stable insertion of one element: it passes every element it does
not strictly precede, so equal keys keep input order. -/
def jsInsertDesc (k : α → Option Int) (x : α) : List α → List α
  | [] => [x]
  | y :: ys => if jsLtDesc k x y then x :: y :: ys else y :: jsInsertDesc k x ys

/-- Stable descending sort by the key `k` (model of
`Array.prototype.sort` with the `(a, b) => dateB - dateA` comparator). -/
def jsSortDesc (k : α → Option Int) (l : List α) : List α :=
  l.foldl (fun acc x => jsInsertDesc k x acc) []

/-- Sort key of `buildRss`: the episode's `dateObj`. -/
def epKey (e : Episode) : Option Int := e.dateObj

/-- Sort key of `updateFeedWithNewEpisodes`: `new Date(item.pubDate[0])`. -/
def itemKey (i : Item) : Option Int := jsParse i.pubDate

/-! ## Feed Merger -/

/-- Embedding of the sort-and-cap core of `buildRss`
(`src/scrape-jazz-night.mjs` lines 82-85): sort newest first, keep the
first `cap` (the source's `MAX_EPISODES`, configurable). -/
def buildRssItems (episodes : List Episode) (cap : Nat) : List Episode :=
  (jsSortDesc epKey episodes).take cap

/-- Embedding of the combine-sort-cap steps of
`updateFeedWithNewEpisodes` (`src/update-jazz-night.mjs`
lines 271-281) applied to the combined item list. -/
def updateMergeItems (allItems : List Item) (cap : Nat) : List Item :=
  (jsSortDesc itemKey allItems).take cap

/-- Embedding of `extractExistingAudioUrls`
(`src/update-jazz-night.mjs` lines 72-84): the enclosure urls of the
feed's items (the source collects them into a `Set`; only membership
is ever used, so a list suffices). -/
def extractExistingAudioUrls (feed : Feed) : List String :=
  feed.items.map (·.enclosureUrl)

/-- Embedding of `updateFeedWithNewEpisodes`
(`src/update-jazz-night.mjs` lines 243-288): filter out episodes whose
audio URL is already present; if none remain report no change and
leave the feed untouched; otherwise process the rest, build items,
concatenate new before existing, sort descending by `pubDate`,
truncate to the cap and stamp `lastBuildDate`.  `now` stands for the
instants `new Date()` read during the call; `cap` is the source's
`MAX_EPISODES` constant, kept as a parameter as in the spec's merge
contract. -/
def updateFeedWithNewEpisodes (feed : Feed) (newEpisodes : List RawEpisode)
    (existingUrls : List String) (now : Int) (cap : Nat) : Bool × Feed :=
  let filtered := newEpisodes.filter (fun ep => decide (ep.audioUrl ∉ existingUrls))
  if filtered = [] then (false, feed)
  else
    let processed := filtered.map (processUpdate now)
    let newItems := processed.map createItemXml
    let allItems := newItems ++ feed.items
    let limited := updateMergeItems allItems cap
    (true, { items := limited, lastBuildDate := toUTCString now })

/-- One whole incremental run's effect on the in-memory feed, as
`main` wires it (`src/update-jazz-night.mjs` lines 314-329): urls are
extracted from the loaded feed and passed to the merge. -/
def runUpdateOnce (feed : Feed) (eps : List RawEpisode) (now : Int) (cap : Nat) : Feed :=
  (updateFeedWithNewEpisodes feed eps (extractExistingAudioUrls feed) now cap).2

/-- The file write decision of `main` (`src/update-jazz-night.mjs`
lines 324-329): the feed is serialised and written only when the merge
reported a change; `none` means the file is left untouched. -/
def updateMainPersisted (feed : Feed) (eps : List RawEpisode) (now : Int) (cap : Nat) :
    Option Feed :=
  let r := updateFeedWithNewEpisodes feed eps (extractExistingAudioUrls feed) now cap
  if r.1 then some r.2 else none

/-! ## Extraction dedup -/

/-- Embedding of the `seen`-set filter ending both extraction passes
(`src/scrape-jazz-night.mjs` lines 436-441 and
`src/update-jazz-night.mjs` lines 211-217): keep a record only if its
`audioUrl` has not been seen yet. -/
def dedupGo (seen : List String) : List RawEpisode → List RawEpisode
  | [] => []
  | e :: rest =>
    if e.audioUrl ∈ seen then dedupGo seen rest
    else e :: dedupGo (e.audioUrl :: seen) rest

/-- The dedup applied to an extraction pass's accumulated results. -/
def dedupByAudioUrl (results : List RawEpisode) : List RawEpisode :=
  dedupGo [] results

/-! ## Lemmas about the sort -/

/-- The key seen by the ordering statements; under the validity
hypotheses the default never fires. -/
def keyD (k : α → Option Int) (x : α) : Int := (k x).getD 0

theorem jsInsertDesc_perm (k : α → Option Int) (x : α) (l : List α) :
    List.Perm (jsInsertDesc k x l) (x :: l) := by
  induction l with
  | nil => simp [jsInsertDesc]
  | cons y ys ih =>
    simp only [jsInsertDesc]
    by_cases h : jsLtDesc k x y
    · simp [h]
    · rw [if_neg h]
      exact (ih.cons y).trans (List.Perm.swap x y ys)

theorem foldlInsert_perm (k : α → Option Int) :
    ∀ (l acc : List α),
      List.Perm (l.foldl (fun acc x => jsInsertDesc k x acc) acc) (acc ++ l) := by
  intro l
  induction l with
  | nil => intro acc; simp
  | cons x t ih =>
    intro acc
    simp only [List.foldl_cons]
    refine (ih _).trans ?_
    refine (List.Perm.append_right t (jsInsertDesc_perm k x acc)).trans ?_
    exact List.perm_middle.symm

theorem jsSortDesc_perm (k : α → Option Int) (l : List α) :
    List.Perm (jsSortDesc k l) l := by
  simpa [jsSortDesc] using foldlInsert_perm k l []

theorem jsLtDesc_valid {k : α → Option Int} {x y : α}
    (hx : (k x).isSome) (hy : (k y).isSome) :
    jsLtDesc k x y = true ↔ keyD k y < keyD k x := by
  cases hkx : k x with
  | none => simp [hkx] at hx
  | some kx =>
    cases hky : k y with
    | none => simp [hky] at hy
    | some ky =>
      simp only [jsLtDesc, keyD, hkx, hky, Option.getD_some, decide_eq_true_eq]
      omega

theorem jsInsertDesc_pairwise {k : α → Option Int} {x : α} {l : List α}
    (hx : (k x).isSome) (hl : ∀ y ∈ l, (k y).isSome)
    (hs : l.Pairwise (fun a b => keyD k b ≤ keyD k a)) :
    (jsInsertDesc k x l).Pairwise (fun a b => keyD k b ≤ keyD k a) := by
  induction l with
  | nil => simp [jsInsertDesc]
  | cons y ys ih =>
    have hy : (k y).isSome := hl y (by simp)
    have hys : ∀ z ∈ ys, (k z).isSome := fun z hz => hl z (by simp [hz])
    rw [List.pairwise_cons] at hs
    simp only [jsInsertDesc]
    by_cases h : jsLtDesc k x y
    · have hxy : keyD k y < keyD k x := (jsLtDesc_valid hx hy).mp h
      simp only [h, if_pos]
      refine List.Pairwise.cons ?_ (List.Pairwise.cons hs.1 hs.2)
      intro z hz
      rcases List.mem_cons.mp hz with rfl | hz
      · omega
      · have := hs.1 z hz; omega
    · have hxy : ¬ keyD k y < keyD k x := fun hc => h ((jsLtDesc_valid hx hy).mpr hc)
      simp only [h, if_neg, Bool.false_eq_true, not_false_iff]
      refine List.Pairwise.cons ?_ (ih hys hs.2)
      intro z hz
      have hz' : z ∈ x :: ys := (jsInsertDesc_perm k x ys).mem_iff.mp hz
      rcases List.mem_cons.mp hz' with rfl | hz'
      · omega
      · exact hs.1 z hz'

theorem jsSortDesc_pairwise {k : α → Option Int} {l : List α}
    (hl : ∀ x ∈ l, (k x).isSome) :
    (jsSortDesc k l).Pairwise (fun a b => keyD k b ≤ keyD k a) := by
  suffices h : ∀ (t acc : List α), (∀ x ∈ t, (k x).isSome) →
      (∀ x ∈ acc, (k x).isSome) →
      acc.Pairwise (fun a b => keyD k b ≤ keyD k a) →
      (t.foldl (fun acc x => jsInsertDesc k x acc) acc).Pairwise
        (fun a b => keyD k b ≤ keyD k a) by
    exact h l [] hl (by simp) (by simp)
  intro t
  induction t with
  | nil => intro acc _ _ hp; simpa using hp
  | cons x ts ih =>
    intro acc ht hacc hp
    have hx : (k x).isSome := ht x (by simp)
    have hts : ∀ z ∈ ts, (k z).isSome := fun z hz => ht z (by simp [hz])
    simp only [List.foldl_cons]
    refine ih _ hts ?_ (jsInsertDesc_pairwise hx hacc hp)
    intro z hz
    have hz' : z ∈ x :: acc := (jsInsertDesc_perm k x acc).mem_iff.mp hz
    rcases List.mem_cons.mp hz' with rfl | hz'
    · exact hx
    · exact hacc z hz'

theorem sorted_take_drop {k : α → Option Int} {l : List α} (cap : Nat)
    (hs : l.Pairwise (fun a b => keyD k b ≤ keyD k a)) :
    ∀ a ∈ l.take cap, ∀ b ∈ l.drop cap, keyD k b ≤ keyD k a := by
  have h := hs
  rw [← List.take_append_drop cap l, List.pairwise_append] at h
  exact h.2.2

/-- The list is in non-increasing key order. -/
def sortedDescBy (k : α → Option Int) (l : List α) : Prop :=
  l.Pairwise (fun a b => keyD k b ≤ keyD k a)

/-- Everything beyond position `cap` of the sorted list (the overflow
that truncation drops) is no newer than anything kept. -/
def droppedAreOlder (k : α → Option Int) (sorted : List α) (cap : Nat) : Prop :=
  ∀ a ∈ sorted.take cap, ∀ b ∈ sorted.drop cap, keyD k b ≤ keyD k a

/-! ## Claim C1 -/

/-- C1: For every episode list and every cap, the Feed Merger's output
in both modes — `buildRss`'s sort-and-slice over episode `dateObj`s
and `updateFeedWithNewEpisodes`'s sort-and-slice over item `pubDate`s
— has length at most the cap, is sorted non-increasing by the resolved
publication timestamp, and drops only the oldest overflow.  The
sortedness statements assume every timestamp resolves to a valid
instant (an unresolvable timestamp makes the source's subtraction
comparator inconsistent, and then no order is defined; see C2). -/
theorem feedMerger_cap_sorted_oldest_dropped
    (episodes : List Episode) (allItems : List Item) (cap : Nat)
    (hA : ∀ e ∈ episodes, e.dateObj.isSome)
    (hB : ∀ i ∈ allItems, (jsParse i.pubDate).isSome) :
    ((buildRssItems episodes cap).length ≤ cap ∧
      sortedDescBy epKey (buildRssItems episodes cap) ∧
      droppedAreOlder epKey (jsSortDesc epKey episodes) cap) ∧
    ((updateMergeItems allItems cap).length ≤ cap ∧
      sortedDescBy itemKey (updateMergeItems allItems cap) ∧
      droppedAreOlder itemKey (jsSortDesc itemKey allItems) cap) := by
  have hsortA : (jsSortDesc epKey episodes).Pairwise
      (fun a b => keyD epKey b ≤ keyD epKey a) := jsSortDesc_pairwise hA
  have hsortB : (jsSortDesc itemKey allItems).Pairwise
      (fun a b => keyD itemKey b ≤ keyD itemKey a) := jsSortDesc_pairwise hB
  refine ⟨⟨List.length_take_le cap _, ?_, sorted_take_drop cap hsortA⟩,
          ⟨List.length_take_le cap _, ?_, sorted_take_drop cap hsortB⟩⟩
  · exact hsortA.sublist (List.take_sublist cap _)
  · exact hsortB.sublist (List.take_sublist cap _)

/-- An episode used to instantiate the theorems. -/
def wEpNew : Episode :=
  { title := "New", link := "https://www.npr.org/2025/10/new", dateText := "2025-10-14",
    audioUrl := "https://ondemand.npr.org/new.mp3", description := "",
    dateObj := some 1760400000000, pubDate := "2025-10-14", guid := "https://ondemand.npr.org/new.mp3" }

/-- An older episode used to instantiate the theorems. -/
def wEpOld : Episode :=
  { title := "Old", link := "https://www.npr.org/2025/09/old", dateText := "2025-09-23",
    audioUrl := "https://ondemand.npr.org/old.mp3", description := "",
    dateObj := some 1758585600000, pubDate := "2025-09-23", guid := "https://ondemand.npr.org/old.mp3" }

/-- An in-memory feed item used to instantiate the theorems. -/
def wItem : Item :=
  { title := "New", link := "https://www.npr.org/2025/10/new",
    guid := "https://ondemand.npr.org/new.mp3", pubDate := "2025-10-14",
    description := "", enclosureUrl := "https://ondemand.npr.org/new.mp3" }

/-- Witness for C1: the theorem applied to two concrete episodes, one
concrete item and cap 1, every hypothesis discharged by evaluation. -/
theorem feedMerger_cap_sorted_oldest_dropped_witness :
    (∀ e ∈ [wEpOld, wEpNew], e.dateObj.isSome) ∧
    (∀ i ∈ [wItem], (jsParse i.pubDate).isSome) ∧
    (((buildRssItems [wEpOld, wEpNew] 1).length ≤ 1 ∧
       sortedDescBy epKey (buildRssItems [wEpOld, wEpNew] 1) ∧
       droppedAreOlder epKey (jsSortDesc epKey [wEpOld, wEpNew]) 1) ∧
     ((updateMergeItems [wItem] 1).length ≤ 1 ∧
       sortedDescBy itemKey (updateMergeItems [wItem] 1) ∧
       droppedAreOlder itemKey (jsSortDesc itemKey [wItem]) 1)) :=
  ⟨by decide, by decide,
    feedMerger_cap_sorted_oldest_dropped [wEpOld, wEpNew] [wItem] 1 (by decide) (by decide)⟩

/-! ## Claim C2 -/

/-- A raw episode whose date text is non-empty but unparseable. -/
def garbageEpisode : RawEpisode :=
  { title := "Episode", link := "https://www.npr.org/2025/10/ep",
    dateText := "garbage text", audioUrl := "https://ondemand.npr.org/ep.mp3",
    description := "" }

/-- C2 (code bug): a FeedItem built from a RawEpisode with non-empty
but unparseable dateText gets the literal string "Invalid Date" as its
pubDate, not a valid RFC-1123 timestamp.  Both `main`s pass
`new Date(dateText)` itself — an invalid date — as the fallback to
`parseDateToRss`, so the fallback renders as "Invalid Date" instead of
the intended "now". -/
theorem pubDate_invalid_on_unparseable_dateText :
    (processScrape 0 garbageEpisode).pubDate = "Invalid Date" ∧
    (processUpdate 0 garbageEpisode).pubDate = "Invalid Date" := by
  constructor <;> decide

/-! ## Claim C4 -/

/-- C4: when every newly scraped episode's audio URL already appears
in the existing feed, the incremental merge reports no change and
returns the feed object untouched, and `main` skips the file write
(`updateMainPersisted` is `none`), so the persisted feed — its
`lastBuildDate` included — stays byte-for-byte unchanged. -/
theorem updateNoNewEpisodes_noWrite
    (feed : Feed) (eps : List RawEpisode) (now : Int) (cap : Nat)
    (h : ∀ ep ∈ eps, ep.audioUrl ∈ extractExistingAudioUrls feed) :
    updateFeedWithNewEpisodes feed eps (extractExistingAudioUrls feed) now cap
      = (false, feed) ∧
    updateMainPersisted feed eps now cap = none := by
  have hf : eps.filter
      (fun ep => decide (ep.audioUrl ∉ extractExistingAudioUrls feed)) = [] := by
    rw [List.filter_eq_nil_iff]
    intro ep hep
    simp [h ep hep]
  refine ⟨?_, ?_⟩
  · simp only [updateFeedWithNewEpisodes]
    rw [if_pos hf]
  · simp only [updateMainPersisted, updateFeedWithNewEpisodes]
    rw [if_pos hf]
    simp

/-- A raw episode whose audio URL coincides with `wItem`'s enclosure. -/
def wRawDup : RawEpisode :=
  { title := "New", link := "https://www.npr.org/2025/10/new", dateText := "2025-10-14",
    audioUrl := "https://ondemand.npr.org/new.mp3", description := "" }

/-- Witness for C4: a feed already holding the scraped episode's URL
is left untouched and nothing is written. -/
theorem updateNoNewEpisodes_noWrite_witness :
    (∀ ep ∈ [wRawDup], ep.audioUrl ∈
        extractExistingAudioUrls { items := [wItem], lastBuildDate := "L" }) ∧
    (updateFeedWithNewEpisodes { items := [wItem], lastBuildDate := "L" } [wRawDup]
        (extractExistingAudioUrls { items := [wItem], lastBuildDate := "L" }) 0 100
      = (false, { items := [wItem], lastBuildDate := "L" }) ∧
     updateMainPersisted { items := [wItem], lastBuildDate := "L" } [wRawDup] 0 100 = none) :=
  ⟨by decide, updateNoNewEpisodes_noWrite _ [wRawDup] 0 100 (by decide)⟩

/-! ## Claim C8 -/

/-- An episode whose audio URL contains an ampersand. -/
def ampEpisode : RawEpisode :=
  { title := "T", link := "https://www.npr.org/2025/10/amp", dateText := "2025-10-14",
    audioUrl := "https://ondemand.npr.org/a&b.mp3", description := "" }

/-- An empty starting feed. -/
def emptyFeed : Feed := { items := [], lastBuildDate := "unset" }

/-- C8 counterexample: merging the single new episode whose audio URL
contains `&` once and then a second time does not reproduce the feed
of the first merge — the item is added again, and the resulting feed
holds two FeedItems with the same enclosure URL.  `createItemXml`
stores `escapeXml(audioUrl)` as the enclosure url, so on the second
run the raw URL is not found among the extracted (escaped) urls. -/
theorem merge_not_idempotent_counterexample :
    runUpdateOnce (runUpdateOnce emptyFeed [ampEpisode] 0 MAX_EPISODES)
        [ampEpisode] 0 MAX_EPISODES
      ≠ runUpdateOnce emptyFeed [ampEpisode] 0 MAX_EPISODES ∧
    ((runUpdateOnce (runUpdateOnce emptyFeed [ampEpisode] 0 MAX_EPISODES)
        [ampEpisode] 0 MAX_EPISODES).items.map (·.enclosureUrl))
      = ["https://ondemand.npr.org/a&amp;b.mp3", "https://ondemand.npr.org/a&amp;b.mp3"] := by
  constructor <;> decide

/-- C8 (amended): provided the new episode list is deduplicated by
audio URL, the existing items' enclosure URLs are pairwise distinct,
every new audio URL is unchanged by XML escaping, and the merge evicts
nothing (the filtered-new plus existing count fits the cap), then
merging the same new set twice yields the same feed as merging it
once, and no two FeedItems of the merged output share an audio URL. -/
theorem merge_idempotent_unique
    (feed : Feed) (eps : List RawEpisode) (now now2 : Int) (cap : Nat)
    (hNew : (eps.map (·.audioUrl)).Pairwise (· ≠ ·))
    (hOld : (feed.items.map (·.enclosureUrl)).Pairwise (· ≠ ·))
    (hEsc : ∀ ep ∈ eps, escapeXml ep.audioUrl = ep.audioUrl)
    (hCap : (eps.filter
        (fun ep => decide (ep.audioUrl ∉ extractExistingAudioUrls feed))).length
      + feed.items.length ≤ cap) :
    runUpdateOnce (runUpdateOnce feed eps now cap) eps now2 cap
      = runUpdateOnce feed eps now cap ∧
    ((runUpdateOnce feed eps now cap).items.map (·.enclosureUrl)).Pairwise (· ≠ ·) := by
  classical
  set urls := extractExistingAudioUrls feed with hurls
  set filtered := eps.filter (fun ep => decide (ep.audioUrl ∉ urls)) with hfiltered
  by_cases hfe : filtered = []
  · have h1 : runUpdateOnce feed eps now cap = feed := by
      simp only [runUpdateOnce, updateFeedWithNewEpisodes, ← hurls, ← hfiltered]
      rw [if_pos hfe]
    rw [h1]
    refine ⟨?_, hOld⟩
    simp only [runUpdateOnce, updateFeedWithNewEpisodes, ← hurls, ← hfiltered]
    rw [if_pos hfe]
  · -- the merge really runs
    have hmain : runUpdateOnce feed eps now cap =
        { items := updateMergeItems
            (((filtered.map (processUpdate now)).map createItemXml) ++ feed.items) cap,
          lastBuildDate := toUTCString now } := by
      simp only [runUpdateOnce, updateFeedWithNewEpisodes, ← hurls, ← hfiltered]
      rw [if_neg hfe]
    set newItems := (filtered.map (processUpdate now)).map createItemXml with hnew
    set allItems := newItems ++ feed.items with hall
    -- the combined list fits the cap, so the slice is a no-op
    have hlenAll : allItems.length ≤ cap := by
      simp only [hall, hnew, List.length_append, List.length_map]
      exact hCap
    have hsortperm : List.Perm (jsSortDesc itemKey allItems) allItems :=
      jsSortDesc_perm itemKey allItems
    have hmerge : updateMergeItems allItems cap = jsSortDesc itemKey allItems := by
      apply List.take_of_length_le
      rw [hsortperm.length_eq]
      exact hlenAll
    -- enclosure urls of the new items are the raw audio urls
    have hnewUrls : newItems.map (·.enclosureUrl) = filtered.map (·.audioUrl) := by
      simp only [hnew, List.map_map]
      apply List.map_congr_left
      intro ep hep
      have : ep ∈ eps := List.mem_of_mem_filter hep
      exact hEsc ep this
    have hfilterSub : filtered.Sublist eps := List.filter_sublist eps
    -- pairwise-distinct urls of the combined list
    have hallUrls : (allItems.map (·.enclosureUrl)).Pairwise (· ≠ ·) := by
      rw [hall, List.map_append, List.pairwise_append]
      refine ⟨?_, hOld, ?_⟩
      · rw [hnewUrls]
        exact hNew.sublist (hfilterSub.map (·.audioUrl))
      · intro a ha b hb
        rw [hnewUrls] at ha
        rcases List.mem_map.mp ha with ⟨ep, hep, rfl⟩
        rw [hfiltered] at hep
        have hd : decide (ep.audioUrl ∉ urls) = true := (List.mem_filter.mp hep).2
        have hnot : ep.audioUrl ∉ urls := of_decide_eq_true hd
        intro hEq
        exact hnot (by rw [hEq]; exact hb)
    have huniq : ((runUpdateOnce feed eps now cap).items.map (·.enclosureUrl)).Pairwise
        (· ≠ ·) := by
      rw [hmain]
      rw [hmerge]
      exact (List.Perm.pairwise_iff (fun h => Ne.symm h)
        (hsortperm.map (·.enclosureUrl))).mpr hallUrls
    refine ⟨?_, huniq⟩
    -- every incoming url is already present after the first merge
    have hmem : ∀ ep ∈ eps, ep.audioUrl ∈
        extractExistingAudioUrls (runUpdateOnce feed eps now cap) := by
      intro ep hep
      rw [hmain]
      simp only [extractExistingAudioUrls]
      rw [hmerge]
      have : ep.audioUrl ∈ allItems.map (·.enclosureUrl) := by
        rw [hall, List.map_append, List.mem_append, hnewUrls]
        by_cases hin : ep.audioUrl ∈ urls
        · right; exact hin
        · left
          exact List.mem_map.mpr ⟨ep, List.mem_filter.mpr ⟨hep, by simp [hin]⟩, rfl⟩
      exact ((hsortperm.map (·.enclosureUrl)).mem_iff).mpr this
    have hsecond := (updateNoNewEpisodes_noWrite (runUpdateOnce feed eps now cap)
      eps now2 cap hmem).1
    show (updateFeedWithNewEpisodes (runUpdateOnce feed eps now cap) eps
      (extractExistingAudioUrls (runUpdateOnce feed eps now cap)) now2 cap).2
      = runUpdateOnce feed eps now cap
    rw [hsecond]

/-- Witness for C8 (amended): one clean new episode merged into the
empty feed, every hypothesis discharged by evaluation. -/
theorem merge_idempotent_unique_witness :
    (([wRawDup].map (·.audioUrl)).Pairwise (· ≠ ·)) ∧
    ((emptyFeed.items.map (·.enclosureUrl)).Pairwise (· ≠ ·)) ∧
    (∀ ep ∈ [wRawDup], escapeXml ep.audioUrl = ep.audioUrl) ∧
    (([wRawDup].filter
        (fun ep => decide (ep.audioUrl ∉ extractExistingAudioUrls emptyFeed))).length
      + emptyFeed.items.length ≤ 100) ∧
    (runUpdateOnce (runUpdateOnce emptyFeed [wRawDup] 0 100) [wRawDup] 7 100
       = runUpdateOnce emptyFeed [wRawDup] 0 100 ∧
     ((runUpdateOnce emptyFeed [wRawDup] 0 100).items.map (·.enclosureUrl)).Pairwise
       (· ≠ ·)) :=
  ⟨by decide, by decide, by decide, by decide,
    merge_idempotent_unique emptyFeed [wRawDup] 0 7 100
      (by decide) (by decide) (by decide) (by decide)⟩

/-! ## Claim C6 -/

/-- C6: the Date Resolver is total on both variants — an ISO date
resolves to that calendar date (rendered as the corresponding
RFC-1123 string) regardless of the fallback; empty text and garbage
text resolve to exactly the (rendered) fallback. -/
theorem dateResolver_total (fb : Int) :
    parseDateToRssScrape "2025-10-14" (some fb) = "Tue, 14 Oct 2025 00:00:00 GMT" ∧
    parseDateToRssUpdate "2025-10-14" (some fb) = "Tue, 14 Oct 2025 00:00:00 GMT" ∧
    parseDateToRssScrape "" (some fb) = toUTCString fb ∧
    parseDateToRssUpdate "" (some fb) = toUTCString fb ∧
    parseDateToRssScrape "garbage text" (some fb) = toUTCString fb ∧
    parseDateToRssUpdate "garbage text" (some fb) = toUTCString fb := by
  exact ⟨rfl, rfl, rfl, rfl, rfl, rfl⟩

/-- Witness for C6: the resolver evaluated at the fallback instant 0
(the epoch). -/
theorem dateResolver_total_witness :
    parseDateToRssScrape "2025-10-14" (some 0) = "Tue, 14 Oct 2025 00:00:00 GMT" ∧
    parseDateToRssUpdate "2025-10-14" (some 0) = "Tue, 14 Oct 2025 00:00:00 GMT" ∧
    parseDateToRssScrape "" (some 0) = toUTCString 0 ∧
    parseDateToRssUpdate "" (some 0) = toUTCString 0 ∧
    parseDateToRssScrape "garbage text" (some 0) = toUTCString 0 ∧
    parseDateToRssUpdate "garbage text" (some 0) = toUTCString 0 :=
  dateResolver_total 0

/-! ## Claim C5 -/

theorem dedupGo_pairwise :
    ∀ (l : List RawEpisode) (seen : List String),
      (dedupGo seen l).Pairwise (fun a b => a.audioUrl ≠ b.audioUrl) ∧
      ∀ e ∈ dedupGo seen l, e.audioUrl ∉ seen := by
  intro l
  induction l with
  | nil => intro seen; simp [dedupGo]
  | cons e rest ih =>
    intro seen
    simp only [dedupGo]
    by_cases hs : e.audioUrl ∈ seen
    · rw [if_pos hs]
      exact ih seen
    · rw [if_neg hs]
      obtain ⟨ihp, ihm⟩ := ih (e.audioUrl :: seen)
      refine ⟨List.Pairwise.cons ?_ ihp, ?_⟩
      · intro b hb
        have := ihm b hb
        intro hEq
        exact this (by rw [← hEq]; exact List.mem_cons_self _ _)
      · intro x hx
        rcases List.mem_cons.mp hx with rfl | hx
        · exact hs
        · have := ihm x hx
          intro hc
          exact this (List.mem_cons_of_mem _ hc)

theorem pairwise_count_le_one {l : List RawEpisode}
    (h : l.Pairwise (fun a b => a.audioUrl ≠ b.audioUrl)) (u : String) :
    l.countP (fun e => e.audioUrl == u) ≤ 1 := by
  induction l with
  | nil => simp
  | cons e t ih =>
    rw [List.pairwise_cons] at h
    rw [List.countP_cons]
    by_cases he : e.audioUrl == u
    · have hu : e.audioUrl = u := by simpa using he
      have hz : t.countP (fun e => e.audioUrl == u) = 0 := by
        rw [List.countP_eq_zero]
        intro b hb
        have := h.1 b hb
        simp only [beq_iff_eq]
        rw [← hu]
        exact fun hc => this hc.symm
      simp [he, hz]
    · simp [he, ih h.2]

theorem dedupGo_covers :
    ∀ (l : List RawEpisode) (seen : List String), ∀ e ∈ l,
      e.audioUrl ∈ seen ∨ ∃ e2 ∈ dedupGo seen l, e2.audioUrl = e.audioUrl := by
  intro l
  induction l with
  | nil => intro seen e he; simp at he
  | cons f rest ih =>
    intro seen e he
    simp only [dedupGo]
    by_cases hs : f.audioUrl ∈ seen
    · rw [if_pos hs]
      rcases List.mem_cons.mp he with rfl | he
      · exact Or.inl hs
      · exact ih seen e he
    · rw [if_neg hs]
      rcases List.mem_cons.mp he with rfl | he
      · exact Or.inr ⟨_, List.mem_cons_self _ _, rfl⟩
      · rcases ih (f.audioUrl :: seen) e he with hmem | ⟨e2, he2, hu⟩
        · rcases List.mem_cons.mp hmem with hEq | hmem
          · exact Or.inr ⟨_, List.mem_cons_self _ _, hEq.symm⟩
          · exact Or.inl hmem
        · exact Or.inr ⟨e2, List.mem_cons_of_mem _ he2, hu⟩

/-- C5: the dedup pass ending both extraction routines leaves no two
records with the same `audioUrl`, leaves at most one record per URL,
and keeps one record for every URL that occurred — so two containers
sharing one audio URL collapse to exactly one RawEpisode. -/
theorem extraction_dedup_unique (results : List RawEpisode) :
    (dedupByAudioUrl results).Pairwise (fun a b => a.audioUrl ≠ b.audioUrl) ∧
    (∀ u : String, (dedupByAudioUrl results).countP (fun e => e.audioUrl == u) ≤ 1) ∧
    (∀ e ∈ results, ∃ e2 ∈ dedupByAudioUrl results, e2.audioUrl = e.audioUrl) := by
  refine ⟨(dedupGo_pairwise results []).1, ?_, ?_⟩
  · intro u
    exact pairwise_count_le_one (dedupGo_pairwise results []).1 u
  · intro e he
    rcases dedupGo_covers results [] e he with hmem | h
    · simp at hmem
    · exact h

/-! ## Claim C7: the pagination loop

`expandAllStories` (`src/scrape-jazz-night.mjs` lines 182-268) is a
`while (true)` loop over the page.  One iteration observes: the
qualifying-container count before clicking, the load-more locator's
element count, its visibility (a throwing check counts as invisible),
whether the click succeeds, and the count after the wait.  The page is
abstracted as an arbitrary sequence of such observations. -/

/-- What one loop iteration observes of the page. -/
structure IterObs where
  preCount : Nat
  buttonCount : Nat
  visible : Bool
  clickOk : Bool
  postCount : Nat

/-- Why the loop broke. -/
inductive StopReason where
  | reachedLimit
  | maxClicksReached
  | noButton
  | notVisible
  | clickFailed
  | stalled
deriving DecidableEq

/-- The loop's mutable state: `clickCount`, `lastEpisodeCount`,
`noChangeCount`, and whether (and why) it has broken out. -/
structure LoopState where
  clickCount : Nat
  lastCount : Nat
  noChangeCount : Nat
  stopped : Option StopReason
deriving DecidableEq

/-- State before the first iteration. -/
def initLoopState : LoopState :=
  { clickCount := 0, lastCount := 0, noChangeCount := 0, stopped := none }

/-- One iteration of the `while (true)` loop, in the source's order:
reached the episode limit; hit the click ceiling (`maxClicks = 50`);
no load-more button; button not visible; click (counted first) threw;
after the wait, an unchanged count bumps the no-change streak and a
third strike stalls out, while any change resets the streak. -/
def expandStep (maxEpisodes : Nat) (obs : IterObs) (s : LoopState) : LoopState :=
  if s.stopped.isSome then s
  else if obs.preCount ≥ maxEpisodes then { s with stopped := some StopReason.reachedLimit }
  else if s.clickCount ≥ 50 then { s with stopped := some StopReason.maxClicksReached }
  else if obs.buttonCount = 0 then { s with stopped := some StopReason.noButton }
  else if !obs.visible then { s with stopped := some StopReason.notVisible }
  else
    let s1 := { s with clickCount := s.clickCount + 1 }
    if !obs.clickOk then { s1 with stopped := some StopReason.clickFailed }
    else if obs.postCount = s1.lastCount then
      if s1.noChangeCount + 1 ≥ 3 then
        { s1 with noChangeCount := s1.noChangeCount + 1, stopped := some StopReason.stalled }
      else
        { s1 with noChangeCount := s1.noChangeCount + 1, lastCount := obs.postCount }
    else { s1 with noChangeCount := 0, lastCount := obs.postCount }

/-- The loop state after `n` iterations against the observation
sequence `env`. -/
def expandIter (maxEpisodes : Nat) (env : Nat → IterObs) : Nat → LoopState
  | 0 => initLoopState
  | n + 1 => expandStep maxEpisodes (env n) (expandIter maxEpisodes env n)

theorem expandStep_of_stopped (maxEpisodes : Nat) (obs : IterObs) (s : LoopState)
    (h : s.stopped.isSome) : expandStep maxEpisodes obs s = s := by
  simp [expandStep, h]

theorem expandStep_progress (maxEpisodes : Nat) (obs : IterObs) (s : LoopState)
    (h : s.stopped = none) :
    (expandStep maxEpisodes obs s).stopped.isSome ∨
      ((expandStep maxEpisodes obs s).stopped = none ∧
        (expandStep maxEpisodes obs s).clickCount = s.clickCount + 1) := by
  simp only [expandStep, h, Option.isSome_none, Bool.false_eq_true, if_false]
  split_ifs <;> simp

theorem expandIter_invariant (maxEpisodes : Nat) (env : Nat → IterObs) :
    ∀ n : Nat, (expandIter maxEpisodes env n).stopped.isSome ∨
      ((expandIter maxEpisodes env n).stopped = none ∧
        (expandIter maxEpisodes env n).clickCount = n) := by
  intro n
  induction n with
  | zero => exact Or.inr ⟨rfl, rfl⟩
  | succ n ih =>
    rcases ih with hstop | ⟨hnone, hcc⟩
    · left
      simp only [expandIter]
      rw [expandStep_of_stopped _ _ _ hstop]
      exact hstop
    · simp only [expandIter]
      rcases expandStep_progress maxEpisodes (env n) _ hnone with h | ⟨h1, h2⟩
      · exact Or.inl h
      · exact Or.inr ⟨h1, by rw [h2, hcc]⟩

theorem expandStep_clickCount_le (maxEpisodes : Nat) (obs : IterObs) (s : LoopState)
    (h : s.clickCount ≤ 50) : (expandStep maxEpisodes obs s).clickCount ≤ 50 := by
  simp only [expandStep]
  split_ifs with h1 h2 h3 h4 h5 <;> simp_all <;> omega

/-- C7: against every sequence of page observations — an oscillating
container count included — the expansion loop of `expandAllStories`
has broken out of its `while (true)` by the time 51 iterations have
run, and it never issues more than the hard ceiling of 50 click
attempts. -/
theorem pagination_terminates (maxEpisodes : Nat) (env : Nat → IterObs) :
    (expandIter maxEpisodes env 51).stopped.isSome ∧
    ∀ n : Nat, (expandIter maxEpisodes env n).clickCount ≤ 50 := by
  constructor
  · have hstep : expandIter maxEpisodes env 51
        = expandStep maxEpisodes (env 50) (expandIter maxEpisodes env 50) := rfl
    rw [hstep]
    rcases expandIter_invariant maxEpisodes env 50 with hstop | ⟨hnone, hcc⟩
    · rw [expandStep_of_stopped _ _ _ hstop]
      exact hstop
    · simp only [expandStep, hnone, Option.isSome_none, Bool.false_eq_true,
        if_false, hcc]
      split_ifs <;> (try simp) <;> omega
  · intro n
    induction n with
    | zero => simp [expandIter, initLoopState]
    | succ n ih =>
      simp only [expandIter]
      exact expandStep_clickCount_le maxEpisodes (env n) _ ih

/-! ## Claim C3: date-text extraction

`scrapeEpisodes` (`src/scrape-jazz-night.mjs` lines 347-390) resolves
`dateText` by five strategies in priority order: the URL-embedded
datestamp regex `/\/(\d{4})\/\d{2}\/(\d{8})/` on the audio URL, then
over the container text the full month-name, abbreviated month-name,
ISO and slash date regexes — first match wins.
`scrapeRecentEpisodes` (`src/update-jazz-night.mjs` lines 171-174)
applies only the full month-name regex.  Each regex is embedded as a
leftmost-match scanner over the character list; `\b` is tracked by
threading the previous character. -/

/-- Maximal run of characters satisfying `p`, with the remainder. -/
def takeRun (p : Char → Bool) : List Char → List Char × List Char
  | [] => ([], [])
  | c :: r =>
    if p c then
      let t := takeRun p r
      (c :: t.1, t.2)
    else ([], c :: r)

/-- Drop a literal prefix, or fail. -/
def dropLit : List Char → List Char → Option (List Char)
  | [], l => some l
  | _ :: _, [] => none
  | p :: ps, c :: r => if c = p then dropLit ps r else none

/-- A `\b` holds before the position when the previous character (none
at the string start) is not a word character; every pattern here
starts with a word character. -/
def boundaryBefore : Option Char → Bool
  | none => true
  | some c => !isWordChar c

/-- A `\b` holds after the position when the next character is absent
or not a word character; every pattern here ends with a word
character. -/
def boundaryAfterOk : List Char → Bool
  | [] => true
  | c :: _ => !isWordChar c

/-- Leftmost-match driver: try the pattern at each position from the
left, threading the previous character for `\b`. -/
def scanPat (p : Option Char → List Char → Option (List Char)) :
    Option Char → List Char → Option (List Char)
  | _, [] => none
  | prev, c :: r =>
    match p prev (c :: r) with
    | some m => some m
    | none => scanPat p (some c) r

/-- The URL datestamp pattern `/\/(\d{4})\/\d{2}\/(\d{8})/` tried at
one position; yields the second capture group (the eight digits).
`\d{8}` needs only eight digits to follow — a longer run matches its
first eight. -/
def matchUrlDateAt (l : List Char) : Option (List Char) :=
  match l with
  | '/' :: r1 =>
    let t1 := takeRun isDigitC r1
    if t1.1.length = 4 then
      match t1.2 with
      | '/' :: r3 =>
        let t2 := takeRun isDigitC r3
        if t2.1.length = 2 then
          match t2.2 with
          | '/' :: r5 =>
            let t3 := takeRun isDigitC r5
            if t3.1.length ≥ 8 then some (t3.1.take 8) else none
          | _ => none
        else none
      | _ => none
    else none
  | _ => none

/-- Leftmost URL datestamp match (no `\b` in this pattern). -/
def scanUrlDate : List Char → Option (List Char)
  | [] => none
  | c :: r =>
    match matchUrlDateAt (c :: r) with
    | some g => some g
    | none => scanUrlDate r

/-- Strategy 1 of `scrapeEpisodes`: the eight-digit group becomes
`YYYY-MM-DD` via the source's three `substring` calls, guarded by the
source's `length === 8` check. -/
def urlDateTextOf (audioUrl : String) : Option String :=
  match scanUrlDate audioUrl.data with
  | some d8 =>
    if d8.length = 8 then
      some ⟨d8.take 4 ++ '-' :: (d8.drop 4).take 2 ++ '-' :: (d8.drop 6).take 2⟩
    else none
  | none => none

/-- Try literal alternatives in order (regex alternation order). -/
def tryNames : List (List Char) → List Char → Option (List Char × List Char)
  | [], _ => none
  | nm :: rest, l =>
    match dropLit nm l with
    | some r => some (nm, r)
    | none => tryNames rest l

/-- The full month names, in the source regex's alternation order. -/
def monthNamesFull : List (List Char) :=
  ["January".data, "February".data, "March".data, "April".data, "May".data,
   "June".data, "July".data, "August".data, "September".data, "October".data,
   "November".data, "December".data]

/-- The abbreviated month names, in the source regex's order. -/
def monthNamesAbbrev : List (List Char) :=
  ["Jan".data, "Feb".data, "Mar".data, "Apr".data, "May".data, "Jun".data,
   "Jul".data, "Aug".data, "Sep".data, "Oct".data, "Nov".data, "Dec".data]

/-- The tail `\s+\d{1,2},\s+\d{4}\b` after a month name.  A digit run
of three or more can never satisfy `\d{1,2},` (backtracking still
meets a digit where the comma must be), and a year run other than
exactly four digits can never satisfy `\d{4}\b`. -/
def matchMonthTail (r : List Char) : Option (List Char) :=
  let w1 := takeRun isWsC r
  if w1.1.isEmpty then none
  else
    let day := takeRun isDigitC w1.2
    if day.1.length = 0 || day.1.length > 2 then none
    else
      match day.2 with
      | ',' :: r3 =>
        let w2 := takeRun isWsC r3
        if w2.1.isEmpty then none
        else
          let yr := takeRun isDigitC w2.2
          if yr.1.length = 4 && boundaryAfterOk yr.2 then
            some (w1.1 ++ day.1 ++ ',' :: w2.1 ++ yr.1)
          else none
      | _ => none

/-- A month-name date pattern
`\b(Name|...)\s+\d{1,2},\s+\d{4}\b` tried at one position. -/
def matchMonthDateAt (names : List (List Char)) (prev : Option Char) (l : List Char) :
    Option (List Char) :=
  if boundaryBefore prev then
    match tryNames names l with
    | some (nm, r) => (matchMonthTail r).map (fun tail => nm ++ tail)
    | none => none
  else none

/-- The ISO pattern `\b\d{4}-\d{2}-\d{2}\b` tried at one position;
each digit run must have exactly the demanded length or the fixed
quantifier meets the wrong character. -/
def matchIsoAt (prev : Option Char) (l : List Char) : Option (List Char) :=
  if boundaryBefore prev then
    let y := takeRun isDigitC l
    if y.1.length = 4 then
      match y.2 with
      | '-' :: r2 =>
        let mo := takeRun isDigitC r2
        if mo.1.length = 2 then
          match mo.2 with
          | '-' :: r4 =>
            let d := takeRun isDigitC r4
            if d.1.length = 2 && boundaryAfterOk d.2 then
              some (y.1 ++ '-' :: mo.1 ++ '-' :: d.1)
            else none
          | _ => none
        else none
      | _ => none
    else none
  else none

/-- The slash pattern `\b\d{1,2}\/\d{1,2}\/\d{4}\b` tried at one
position. -/
def matchSlashAt (prev : Option Char) (l : List Char) : Option (List Char) :=
  if boundaryBefore prev then
    let a := takeRun isDigitC l
    if a.1.length = 0 || a.1.length > 2 then none
    else
      match a.2 with
      | '/' :: r2 =>
        let b := takeRun isDigitC r2
        if b.1.length = 0 || b.1.length > 2 then none
        else
          match b.2 with
          | '/' :: r4 =>
            let y := takeRun isDigitC r4
            if y.1.length = 4 && boundaryAfterOk y.2 then
              some (a.1 ++ '/' :: b.1 ++ '/' :: y.1)
            else none
          | _ => none
      | _ => none
  else none

/-- Strategy 2: first full month-name date in the context text. -/
def findFullMonthDate (s : String) : Option String :=
  (scanPat (matchMonthDateAt monthNamesFull) none s.data).map (⟨·⟩)

/-- Strategy 3: first abbreviated month-name date. -/
def findAbbrevMonthDate (s : String) : Option String :=
  (scanPat (matchMonthDateAt monthNamesAbbrev) none s.data).map (⟨·⟩)

/-- Strategy 4: first ISO date. -/
def findIsoDate (s : String) : Option String :=
  (scanPat matchIsoAt none s.data).map (⟨·⟩)

/-- Strategy 5: first slash date. -/
def findSlashDate (s : String) : Option String :=
  (scanPat matchSlashAt none s.data).map (⟨·⟩)

/-- Embedding of `scrapeEpisodes`'s date resolution
(`src/scrape-jazz-night.mjs` lines 347-390): the if-chain trying the
five strategies, empty string when all fail. -/
def scrapeExtractDateText (audioUrl contextText : String) : String :=
  match urlDateTextOf audioUrl with
  | some t => t
  | none =>
    match findFullMonthDate contextText with
    | some m => m
    | none =>
      match findAbbrevMonthDate contextText with
      | some m => m
      | none =>
        match findIsoDate contextText with
        | some m => m
        | none =>
          match findSlashDate contextText with
          | some m => m
          | none => ""

/-- Embedding of `scrapeRecentEpisodes`'s date resolution
(`src/update-jazz-night.mjs` lines 171-174): only the full month-name
pattern, empty string otherwise. -/
def updateExtractDateText (contextText : String) : String :=
  (findFullMonthDate contextText).getD ""

/-- The spec's chooser: the first strategy that matched wins, in list
order; empty when none matched. -/
def firstMatchOf (candidates : List (Option String)) : String :=
  (candidates.findSome? id).getD ""

/-- The claim's example audio URL. -/
def exampleAudioUrl : String :=
  "https://ondemand.npr.org/anon.npr-mp3/npr/specials/2025/10/20251014_specials_x.mp3"

/-- C3 counterexample: the incremental-update extractor ignores the
URL-embedded datestamp (and the abbreviated/ISO/slash patterns): for
the claim's example audio URL and a container text with no full
month-name date, incremental extraction yields "" where the claim
demands "2025-10-14" — which full-build extraction does yield. -/
theorem updateDateText_ignores_url_counterexample :
    updateExtractDateText "Listen Download Embed" = "" ∧
    scrapeExtractDateText exampleAudioUrl "Listen Download Embed" = "2025-10-14" ∧
    ("" : String) ≠ "2025-10-14" := by
  refine ⟨rfl, rfl, by decide⟩

/-- C3 (amended): the full-build extractor resolves dateText by the
five strategies in priority order — URL-embedded datestamp, full
month-name, abbreviated month-name, ISO, slash — first match winning,
and on the example URL it extracts "2025-10-14" whatever the
container text; the incremental-update extractor applies only the
full month-name pattern. -/
theorem dateText_priority (audioUrl contextText : String) :
    scrapeExtractDateText audioUrl contextText =
      firstMatchOf [urlDateTextOf audioUrl, findFullMonthDate contextText,
        findAbbrevMonthDate contextText, findIsoDate contextText,
        findSlashDate contextText] ∧
    updateExtractDateText contextText = firstMatchOf [findFullMonthDate contextText] ∧
    scrapeExtractDateText exampleAudioUrl contextText = "2025-10-14" := by
  refine ⟨?_, ?_, ?_⟩
  · simp only [scrapeExtractDateText, firstMatchOf]
    cases urlDateTextOf audioUrl <;>
      cases findFullMonthDate contextText <;>
        cases findAbbrevMonthDate contextText <;>
          cases findIsoDate contextText <;>
            cases findSlashDate contextText <;> rfl
  · simp only [updateExtractDateText, firstMatchOf]
    cases findFullMonthDate contextText <;> rfl
  · rfl

/-! ## Claim C9: title-anchor selection

An anchor is abstracted to its resolved `href`, its `textContent` and
its immediate parent's tag name, in document order as
`querySelectorAll("a")` returns them.  The incremental updater's
`findTitleAnchor` (`src/update-jazz-night.mjs` lines 127-158) walks
outward through up to `MAX_DEPTH = 10` ancestors, each contributing
its anchor list; `scrapeEpisodes` (`src/scrape-jazz-night.mjs`
lines 331-339) searches only the article's own anchors with
`Array.prototype.find`. -/

/-- An anchor element as the extraction code observes it. -/
structure AnchorInfo where
  href : String
  text : String
  parentTag : String
deriving DecidableEq

/-- Substring test (JavaScript `String.prototype.includes`). -/
def hasSubstring (hay needle : List Char) : Bool :=
  match hay with
  | [] => needle.isEmpty
  | _ :: r => needle.isPrefixOf hay || hasSubstring r needle

/-- The `/\/20\d{2}\//` "article path carries a year" shape at one
position. -/
def yearPathAt : List Char → Bool
  | '/' :: '2' :: '0' :: a :: b :: '/' :: _ => isDigitC a && isDigitC b
  | _ => false

/-- The `/\/20\d{2}\//` test anywhere in the href. -/
def hasYearPath : List Char → Bool
  | [] => false
  | c :: r => yearPathAt (c :: r) || hasYearPath r

/-- The qualifying predicate shared by both modes: non-empty trimmed
text, href not on the download host, not a media embed, and matching
the year-path shape. -/
def qualifiesAsTitleAnchor (a : AnchorInfo) : Bool :=
  jsTrim a.text != "" &&
  !hasSubstring a.href.data "ondemand.npr.org".data &&
  !hasSubstring a.href.data "player/embed".data &&
  hasYearPath a.href.data

/-- The `/H[12]/i` test on the parent's tag name (a case-insensitive
substring test, as `RegExp.prototype.test` performs). -/
def headingParent (a : AnchorInfo) : Bool :=
  hasSubstring (a.parentTag.data.map Char.toUpper) "H1".data ||
  hasSubstring (a.parentTag.data.map Char.toUpper) "H2".data

/-- Full-build title-anchor choice: the first qualifying anchor in
document order. -/
def scrapeFindTitleAnchor (anchors : List AnchorInfo) : Option AnchorInfo :=
  anchors.find? qualifiesAsTitleAnchor

/-- The updater's `findTitleAnchor` loop: at each level (the start
node, then its ancestors, at most `MAX_DEPTH` in all), filter that
level's anchors; on the first level with candidates return the one
whose parent is a heading, else the first; otherwise walk up. -/
def updateFindTitleAnchorGo : Nat → List (List AnchorInfo) → Option AnchorInfo
  | _, [] => none
  | 0, _ => none
  | fuel + 1, cands :: rest =>
    match cands.filter qualifiesAsTitleAnchor with
    | [] => updateFindTitleAnchorGo fuel rest
    | q :: qs => some (((q :: qs).find? headingParent).getD q)

/-- The updater's title-anchor choice over the node-then-ancestors
chain. -/
def updateFindTitleAnchor (levels : List (List AnchorInfo)) : Option AnchorInfo :=
  updateFindTitleAnchorGo 10 levels

theorem find?_eq_head_filter (p : α → Bool) (l : List α) :
    l.find? p = (l.filter p).head? := by
  induction l with
  | nil => rfl
  | cons x t ih =>
    by_cases h : p x
    · rw [List.find?_cons_of_pos _ h, List.filter_cons_of_pos h]
      rfl
    · rw [List.find?_cons_of_neg _ h, List.filter_cons_of_neg h]
      exact ih

/-- A qualifying anchor under a heading, listed after a qualifying
anchor not under one. -/
def anchorPlain : AnchorInfo :=
  { href := "https://www.npr.org/2025/10/ep-a", text := "Episode A", parentTag := "DIV" }

/-- The heading-parented qualifying anchor of the counterexample. -/
def anchorHeading : AnchorInfo :=
  { href := "https://www.npr.org/2025/10/ep-b", text := "Episode B", parentTag := "H2" }

/-- C9 counterexample: with two qualifying anchors, the second under
a heading, full-build extraction picks the first (no heading
preference), while incremental extraction picks the heading one as
the claim describes — so the claimed preference does not hold in both
modes. -/
theorem scrapeTitleAnchor_no_heading_preference_counterexample :
    scrapeFindTitleAnchor [anchorPlain, anchorHeading] = some anchorPlain ∧
    updateFindTitleAnchor [[anchorPlain, anchorHeading]] = some anchorHeading ∧
    qualifiesAsTitleAnchor anchorHeading = true ∧
    headingParent anchorHeading = true ∧
    headingParent anchorPlain = false ∧
    anchorPlain ≠ anchorHeading := by
  exact ⟨rfl, rfl, rfl, rfl, rfl, by decide⟩

/-- C9 (amended): the chosen title anchor always satisfies the
qualifying predicate (non-empty text, not the download host, not a
media embed, year-path shape); the incremental mode prefers — at the
first level that has qualifying candidates — the first candidate whose
immediate parent is a heading-level element and otherwise takes the
first candidate; the full-build mode always takes the first
qualifying anchor in document order, with no heading preference. -/
theorem titleAnchor_selection
    (cands : List AnchorInfo) (rest : List (List AnchorInfo))
    (anchors : List AnchorInfo) (q0 : AnchorInfo) (qs : List AnchorInfo)
    (hq : cands.filter qualifiesAsTitleAnchor = q0 :: qs) :
    (scrapeFindTitleAnchor anchors = (anchors.filter qualifiesAsTitleAnchor).head?) ∧
    (∃ c, updateFindTitleAnchor (cands :: rest) = some c ∧
      qualifiesAsTitleAnchor c = true ∧
      ((∃ q ∈ q0 :: qs, headingParent q = true) →
        some c = (q0 :: qs).find? headingParent ∧ headingParent c = true) ∧
      ((∀ q ∈ q0 :: qs, headingParent q = false) → c = q0)) := by
  refine ⟨find?_eq_head_filter _ _, ?_⟩
  have hstep : updateFindTitleAnchor (cands :: rest)
      = some (((q0 :: qs).find? headingParent).getD q0) := by
    simp only [updateFindTitleAnchor, updateFindTitleAnchorGo, hq]
  refine ⟨((q0 :: qs).find? headingParent).getD q0, hstep, ?_, ?_, ?_⟩
  · -- the choice is a qualifying candidate
    have hmem : ((q0 :: qs).find? headingParent).getD q0 ∈ q0 :: qs := by
      cases hf : (q0 :: qs).find? headingParent with
      | none => simp [List.mem_cons]
      | some a =>
        simp only [Option.getD_some]
        exact List.mem_of_find?_eq_some hf
    have : ((q0 :: qs).find? headingParent).getD q0 ∈ cands.filter qualifiesAsTitleAnchor := by
      rw [hq]; exact hmem
    exact (List.mem_filter.mp this).2
  · intro hex
    have hsome : ((q0 :: qs).find? headingParent).isSome := by
      rw [List.find?_isSome]
      rcases hex with ⟨q, hqmem, hqh⟩
      exact ⟨q, hqmem, hqh⟩
    cases hf : (q0 :: qs).find? headingParent with
    | none => rw [hf] at hsome; simp at hsome
    | some a =>
      refine ⟨rfl, ?_⟩
      simp only [Option.getD_some]
      exact List.find?_some hf
  · intro hall
    have hf : (q0 :: qs).find? headingParent = none := by
      rw [List.find?_eq_none]
      intro q hqmem
      simp [hall q hqmem]
    rw [hf]
    rfl

/-- Witness for C9 (amended): the theorem applied to the concrete
two-anchor container, the filter hypothesis discharged by
evaluation. -/
theorem titleAnchor_selection_witness :
    ([anchorPlain, anchorHeading].filter qualifiesAsTitleAnchor
      = anchorPlain :: [anchorHeading]) ∧
    ((scrapeFindTitleAnchor [anchorPlain]
        = ([anchorPlain].filter qualifiesAsTitleAnchor).head?) ∧
     (∃ c, updateFindTitleAnchor [[anchorPlain, anchorHeading]] = some c ∧
       qualifiesAsTitleAnchor c = true ∧
       ((∃ q ∈ anchorPlain :: [anchorHeading], headingParent q = true) →
         some c = (anchorPlain :: [anchorHeading]).find? headingParent ∧
           headingParent c = true) ∧
       ((∀ q ∈ anchorPlain :: [anchorHeading], headingParent q = false) →
         c = anchorPlain))) :=
  ⟨by decide,
    titleAnchor_selection [anchorPlain, anchorHeading] [] [anchorPlain]
      anchorPlain [anchorHeading] (by decide)⟩

/-! ## Claim C10: double escaping on the incremental save path

`createItemXml` stores already-`escapeXml`-ed strings in the xml2js
tree; `saveFeed`'s `Builder` escapes text content again when
serialising, and `parseStringPromise` decodes entities once when
loading.  The builder's text escaping and the parser's decoding are
modelled as an inverse pair (`builderEncodeText` / `xmlDecodeText`),
which is the XML collaborator's contract; what survives in the
document's decoded character data is then exactly what `createItemXml`
stored. -/

/-- One character of the xml2js builder's text escaping. -/
def bEncChar (c : Char) : List Char :=
  if c = '&' then "&amp;".data
  else if c = '<' then "&lt;".data
  else if c = '>' then "&gt;".data
  else [c]

/-- The xml2js builder's escaping of a text node. -/
def builderEncodeText (s : String) : String := ⟨s.data.flatMap bEncChar⟩

/-- Recognise one XML entity after an ampersand. -/
def decodeEntityAt (r : List Char) : Option (Char × List Char) :=
  match dropLit "amp;".data r with
  | some rest => some ('&', rest)
  | none =>
    match dropLit "lt;".data r with
    | some rest => some ('<', rest)
    | none =>
      match dropLit "gt;".data r with
      | some rest => some ('>', rest)
      | none =>
        match dropLit "quot;".data r with
        | some rest => some (quoteC, rest)
        | none =>
          match dropLit "apos;".data r with
          | some rest => some (aposC, rest)
          | none => none

/-- Entity decoding with fuel (one unit per emitted character; the
input length is always enough fuel). -/
def xmlDecodeGo : Nat → List Char → List Char
  | 0, l => l
  | _, [] => []
  | fuel + 1, c :: r =>
    if c = '&' then
      match decodeEntityAt r with
      | some (d, rest) => d :: xmlDecodeGo fuel rest
      | none => c :: xmlDecodeGo fuel r
    else c :: xmlDecodeGo fuel r

/-- The XML parser's entity decoding of character data. -/
def xmlDecodeText (s : String) : String := ⟨xmlDecodeGo s.data.length s.data⟩

/-- The decoded character data the persisted `title` element carries
for a newly added episode: `createItemXml`'s stored string, escaped by
the builder on save and decoded by the parser on load. -/
def persistedDecodedTitle (ep : Episode) : String :=
  xmlDecodeText (builderEncodeText (createItemXml ep).title)

/-- The decoded character data of the persisted `link` element. -/
def persistedDecodedLink (ep : Episode) : String :=
  xmlDecodeText (builderEncodeText (createItemXml ep).link)

/-- The decoded character data of the persisted `description`
element. -/
def persistedDecodedDescription (ep : Episode) : String :=
  xmlDecodeText (builderEncodeText (createItemXml ep).description)

theorem one_le_length_bEncChar (c : Char) : 1 ≤ (bEncChar c).length := by
  unfold bEncChar
  split_ifs <;> simp

theorem length_le_flatMap_bEncChar (l : List Char) :
    l.length ≤ (l.flatMap bEncChar).length := by
  induction l with
  | nil => simp
  | cons c t ih =>
    simp only [List.flatMap_cons, List.length_append, List.length_cons]
    have := one_le_length_bEncChar c
    omega

theorem xmlDecodeGo_flatMap_bEncChar (l : List Char) :
    ∀ fuel : Nat, l.length ≤ fuel → xmlDecodeGo fuel (l.flatMap bEncChar) = l := by
  induction l with
  | nil =>
    intro fuel _
    cases fuel <;> rfl
  | cons c t ih =>
    intro fuel hf
    match fuel, hf with
    | f + 1, hf =>
      have ht : t.length ≤ f := by simp at hf; omega
      by_cases h1 : c = '&'
      · subst h1
        have hstep : xmlDecodeGo (f + 1) (('&' :: t).flatMap bEncChar)
            = '&' :: xmlDecodeGo f (t.flatMap bEncChar) := rfl
        rw [hstep, ih f ht]
      · by_cases h2 : c = '<'
        · subst h2
          have hstep : xmlDecodeGo (f + 1) (('<' :: t).flatMap bEncChar)
              = '<' :: xmlDecodeGo f (t.flatMap bEncChar) := rfl
          rw [hstep, ih f ht]
        · by_cases h3 : c = '>'
          · subst h3
            have hstep : xmlDecodeGo (f + 1) (('>' :: t).flatMap bEncChar)
                = '>' :: xmlDecodeGo f (t.flatMap bEncChar) := rfl
            rw [hstep, ih f ht]
          · have hb : bEncChar c = [c] := by
              unfold bEncChar
              rw [if_neg h1, if_neg h2, if_neg h3]
            rw [List.flatMap_cons, hb]
            show xmlDecodeGo (f + 1) (c :: t.flatMap bEncChar) = c :: t
            simp only [xmlDecodeGo]
            rw [if_neg h1, ih f ht]

/-- Decoding inverts the builder's escaping on every string: the XML
collaborator's save-then-parse round trip is the identity on the
stored tree values. -/
theorem xmlDecode_builderEncode (s : String) :
    xmlDecodeText (builderEncodeText s) = s := by
  have hfuel : s.data.length ≤ (s.data.flatMap bEncChar).length :=
    length_le_flatMap_bEncChar s.data
  have h := xmlDecodeGo_flatMap_bEncChar s.data (s.data.flatMap bEncChar).length hfuel
  show String.mk (xmlDecodeGo (s.data.flatMap bEncChar).length (s.data.flatMap bEncChar))
      = s
  rw [h]

theorem one_le_length_escCharL (c : Char) : 1 ≤ (escCharL c).length := by
  unfold escCharL
  split_ifs <;> simp

theorem escCharL_of_plain {c : Char} (h : specialC c = false) : escCharL c = [c] := by
  unfold specialC at h
  simp only [Bool.or_eq_false_iff, decide_eq_false_iff_not] at h
  unfold escCharL
  rw [if_neg h.1.1.1.1, if_neg h.1.1.1.2, if_neg h.1.1.2, if_neg h.1.2, if_neg h.2]

theorem two_le_length_escCharL_of_special {c : Char} (h : specialC c = true) :
    2 ≤ (escCharL c).length := by
  unfold specialC at h
  simp only [Bool.or_eq_true, decide_eq_true_eq] at h
  rcases h with ((((rfl | rfl) | rfl) | rfl) | rfl) <;> decide

theorem length_le_escList (l : List Char) : l.length ≤ (l.flatMap escCharL).length := by
  induction l with
  | nil => simp
  | cons c t ih =>
    simp only [List.flatMap_cons, List.length_append, List.length_cons]
    have := one_le_length_escCharL c
    omega

theorem escList_length_lt (l : List Char) (h : l.all (fun c => !specialC c) = false) :
    l.length < (l.flatMap escCharL).length := by
  induction l with
  | nil => simp at h
  | cons c t ih =>
    simp only [List.all_cons, Bool.and_eq_false_iff] at h
    simp only [List.flatMap_cons, List.length_append, List.length_cons]
    rcases h with h | h
    · have hs : specialC c = true := by
        cases hsc : specialC c
        · rw [hsc] at h; simp at h
        · rfl
      have h2 := two_le_length_escCharL_of_special hs
      have h3 := length_le_escList t
      omega
    · have h1 := one_le_length_escCharL c
      have h2 := ih h
      omega

theorem escList_of_plain :
    ∀ l : List Char, l.all (fun c => !specialC c) = true → l.flatMap escCharL = l := by
  intro l
  induction l with
  | nil => intro _; rfl
  | cons c t ih =>
    intro h
    simp only [List.all_cons, Bool.and_eq_true] at h
    have hc : specialC c = false := by
      cases hsc : specialC c
      · rfl
      · rw [hsc] at h; simp at h
    simp only [List.flatMap_cons]
    rw [escCharL_of_plain hc, ih h.2]
    rfl

theorem escList_eq_self_iff (l : List Char) :
    l.flatMap escCharL = l ↔ l.all (fun c => !specialC c) = true := by
  constructor
  · intro h
    by_contra hall
    have hfalse : l.all (fun c => !specialC c) = false := by
      cases hv : l.all (fun c => !specialC c)
      · rfl
      · exact absurd hv hall
    have := escList_length_lt l hfalse
    rw [h] at this
    omega
  · exact escList_of_plain l

/-- A string is a fixed point of `escapeXml` exactly when it contains
none of the five escaped characters. -/
theorem escapeXml_eq_self_iff (s : String) :
    escapeXml s = s ↔ xmlSpecialFree s = true := by
  constructor
  · intro h
    exact (escList_eq_self_iff s.data).mp (congrArg String.data h)
  · intro h
    show (⟨s.data.flatMap escCharL⟩ : String) = s
    rw [(escList_eq_self_iff s.data).mpr h]

/-- An episode whose description carries markup and an ampersand. -/
def taggedEpisode : Episode :=
  { title := "T", link := "https://www.npr.org/2025/10/x", dateText := "",
    audioUrl := "https://ondemand.npr.org/x.mp3", description := "<b>x & y</b>",
    dateObj := some 0, pubDate := "Thu, 01 Jan 1970 00:00:00 GMT",
    guid := "https://ondemand.npr.org/x.mp3" }

/-- C10 counterexample: for a description containing `<`, `>` and `&`,
the persisted element's decoded character data is
`escapeXml(sanitizeDescription(original))` — the tags are stripped
first — and not `escapeXml(original)` as the claim states for every
field. -/
theorem description_double_escape_counterexample :
    persistedDecodedDescription taggedEpisode = "x &amp; y" ∧
    escapeXml "<b>x & y</b>" = "&lt;b&gt;x &amp; y&lt;/b&gt;" ∧
    persistedDecodedDescription taggedEpisode ≠ escapeXml "<b>x & y</b>" := by
  exact ⟨rfl, rfl, by decide⟩

/-- C10 (amended): on the incremental save path a newly added item's
text is escaped by `createItemXml` and again by the builder, so after
one save/load cycle the decoded character data of `title` and `link`
equals `escapeXml(original)`, and that of `description` equals
`escapeXml(sanitizeDescription(original))`; save-then-load is the
identity on the title (resp. link) exactly when it contains none of
`& < > " '`. -/
theorem doubleEscape_roundtrip (ep : Episode)
    (hT : ep.title ≠ "") (hL : ep.link ≠ "") :
    persistedDecodedTitle ep = escapeXml ep.title ∧
    persistedDecodedLink ep = escapeXml ep.link ∧
    persistedDecodedDescription ep = escapeXml (sanitizeDescription ep.description) ∧
    (persistedDecodedTitle ep = ep.title ↔ xmlSpecialFree ep.title = true) ∧
    (persistedDecodedLink ep = ep.link ↔ xmlSpecialFree ep.link = true) := by
  have h1 : persistedDecodedTitle ep = escapeXml ep.title := by
    unfold persistedDecodedTitle createItemXml
    simp only [jsOr, if_neg hT]
    exact xmlDecode_builderEncode _
  have h2 : persistedDecodedLink ep = escapeXml ep.link := by
    unfold persistedDecodedLink createItemXml
    simp only [jsOr, if_neg hL]
    exact xmlDecode_builderEncode _
  have h3 : persistedDecodedDescription ep
      = escapeXml (sanitizeDescription ep.description) := by
    unfold persistedDecodedDescription createItemXml
    exact xmlDecode_builderEncode _
  refine ⟨h1, h2, h3, ?_, ?_⟩
  · rw [h1]; exact escapeXml_eq_self_iff ep.title
  · rw [h2]; exact escapeXml_eq_self_iff ep.link

/-- Witness for C10 (amended): the theorem applied to the concrete
tagged episode, the non-empty-field hypotheses discharged by
evaluation. -/
theorem doubleEscape_roundtrip_witness :
    (taggedEpisode.title ≠ "") ∧ (taggedEpisode.link ≠ "") ∧
    (persistedDecodedTitle taggedEpisode = escapeXml taggedEpisode.title ∧
     persistedDecodedLink taggedEpisode = escapeXml taggedEpisode.link ∧
     persistedDecodedDescription taggedEpisode
       = escapeXml (sanitizeDescription taggedEpisode.description) ∧
     (persistedDecodedTitle taggedEpisode = taggedEpisode.title ↔
       xmlSpecialFree taggedEpisode.title = true) ∧
     (persistedDecodedLink taggedEpisode = taggedEpisode.link ↔
       xmlSpecialFree taggedEpisode.link = true)) :=
  ⟨by decide, by decide,
    doubleEscape_roundtrip taggedEpisode (by decide) (by decide)⟩

end JazzNight
